import Mathlib

/-!
Verification of the deepnet/nura automatic-differentiation engine.

This file shallowly embeds the parts of the repository that the claims
C1..C10 are about:

* a dense N-dimensional array model (`Arr`) with row-major flattened data,
  mirroring the numpy arrays the code manipulates;
* the broadcast-mismatch gradient reduction of
  `src/nura/autograd/functional.py` (`mismatch`, `sumdims`, `sumgrad`);
* the activation functions of `src/nura/nn/functions.py`
  (`_ReLU.backward`, `_LeakyReLU.backward`, `_LeakyReLU.tangent`);
* the matrix-multiply backward of `src/deepnet/functions.py` (`Matmul`);
* the backward engine of `src/nura/autograd/functional.py`
  (`_backward`, `_grad`, `backward`, `grad`, `vjp`, `jvp`) together with the
  graph construction of `src/nura/autograd/graph.py`
  (`Node`, `getnode`, `genout`, `getgrads`).

Machine-float payloads are modelled with exact integer values (every
concrete input below is integral, where float arithmetic is exact);
dtypes are carried explicitly because the engine casts gradients
(`newgrad.to(tensor.dtype)`).

The class `nura.tensors.Tensor` and `nura/autograd/function.py` are not
under src/.  Where a definition depends on them it is modelled from the
spec (see the doc comments that say so): tensors carry a payload, the
flags `usegrad` and `leaf`, an optional `grad` and an optional producer
node, and `Context.usesgrad()` is true iff some saved tensor requires
gradients (spec section 3 and section 4.2).
-/

namespace DN

/-- Element types of tensors; `nura.types` wraps numpy dtypes.  Only the
distinctions the engine cares about are kept: floating dtypes are the
"gradtensor" dtypes. -/
inductive DType
  | f16 | f32 | f64 | i32 | b8
deriving DecidableEq, Repr

/-- Whether a dtype is a floating-point (differentiable) dtype, modelling
`Tensor.gradtensor` (spec section 7, NonDifferentiableTypeError). -/
def gradDT : DType → Bool
  | .f16 | .f32 | .f64 => true
  | _ => false

/-- Numeric promotion rank used to pick the dtype of a binary result. -/
def dtRank : DType → Nat
  | .b8 => 0 | .i32 => 1 | .f16 => 2 | .f32 => 3 | .f64 => 4

/-- Dtype of the result of a binary numpy operation. -/
def promoteDT (a b : DType) : DType :=
  if dtRank a ≤ dtRank b then b else a

/-- A dense N-dimensional array: shape, row-major flattened data, dtype.
This is the payload (`tensor.data` plus `tensor.dim`/`tensor.dtype`) of a
tensor. -/
structure Arr where
  shape : List Nat
  data : List ℤ
  dtype : DType
deriving DecidableEq, Repr

/-- All multi-indices of a shape, in row-major order (last axis fastest). -/
def allIdx : List Nat → List (List Nat)
  | [] => [[]]
  | d :: ds => ((List.range d).map fun i => (allIdx ds).map fun ix => i :: ix).flatten

/-- Row-major flat position of a multi-index. -/
def flatPos : List Nat → List Nat → Nat
  | _ :: ds, i :: ix => i * ds.prod + flatPos ds ix
  | _, _ => 0

/-- Componentwise bounds check of a multi-index against a shape. -/
def idxOk : List Nat → List Nat → Bool
  | [], [] => true
  | d :: ds, i :: ix => decide (i < d) && idxOk ds ix
  | _, _ => false

/-- Element of an array at a multi-index (0 when out of range, like a
partial read; all theorems use in-range indices). -/
def arrGet (a : Arr) (ix : List Nat) : ℤ :=
  a.data.getD (flatPos a.shape ix) 0

/-- Array built from an element function, in row-major order. -/
def ofFun (sh : List Nat) (dt : DType) (f : List Nat → ℤ) : Arr :=
  ⟨sh, (allIdx sh).map f, dt⟩

/-- `np.zeros_like` wrapped with the source tensor's dtype, embedding
`nura.utils.zeroslike` (src/nura/utils.py lines 31-36). -/
def zerosLike (a : Arr) : Arr :=
  ⟨a.shape, List.replicate a.shape.prod 0, a.dtype⟩

/-- `np.ones_like` wrapped with the source tensor's dtype, embedding
`nura.utils.oneslike` (src/nura/utils.py lines 47-52). -/
def onesLike (a : Arr) : Arr :=
  ⟨a.shape, List.replicate a.shape.prod 1, a.dtype⟩

/-- Value cast of one element when converting an array to a dtype.  On
the integer-valued payloads of this model every dtype conversion is
value-exact, so only the dtype tag changes. -/
def castVal (_dt : DType) (q : ℤ) : ℤ := q

/-- Embedding of `Tensor.to(dtype)` on the payload: the data is cast and
the dtype tag replaced (src/nura/utils.py `to`, src/neuro/types.py
`dtype.numpy`). -/
def castArr (a : Arr) (dt : DType) : Arr :=
  ⟨a.shape, a.data.map (castVal dt), dt⟩

/-- Numpy broadcast of two shapes, aligned from the right; `none` when the
shapes are incompatible (spec section 7, ShapeMismatchError). -/
def bshapeR : List Nat → List Nat → Option (List Nat)
  | [], ys => some ys
  | x :: xs, [] => some (x :: xs)
  | x :: xs, y :: ys =>
    (bshapeR xs ys).bind fun rest =>
      if x = y then some (x :: rest)
      else if x = 1 then some (y :: rest)
      else if y = 1 then some (x :: rest)
      else none

/-- Broadcast shape of two shapes (numpy semantics). -/
def bshape (xs ys : List Nat) : Option (List Nat) :=
  (bshapeR xs.reverse ys.reverse).map List.reverse

/-- Map an index of the broadcast result to an index of a source operand:
drop the extra leading axes and clamp size-1 source axes to 0. -/
def bcastIdx (src : List Nat) (ix : List Nat) : List Nat :=
  (ix.drop (ix.length - src.length)).zipWith (fun i d => if d = 1 then 0 else i) src

/-- Broadcasting elementwise binary operation (numpy semantics for `+`,
`*`, ... on arrays); `none` when the shapes cannot broadcast. -/
def arrZip (f : ℤ → ℤ → ℤ) (a b : Arr) : Option Arr :=
  (bshape a.shape b.shape).map fun sh =>
    ofFun sh (promoteDT a.dtype b.dtype) fun ix =>
      f (arrGet a (bcastIdx a.shape ix)) (arrGet b (bcastIdx b.shape ix))

/-- Numpy `+` on arrays. -/
def arrAdd (a b : Arr) : Option Arr := arrZip (· + ·) a b

/-- Numpy `*` on arrays. -/
def arrMul (a b : Arr) : Option Arr := arrZip (· * ·) a b

/-- Multi-axis reduction `grad.sum(dim=dims, keepdims=keep)` (numpy
semantics): the output index is the input index with the reduced axes
dropped (or pinned to 0 when kept), and each output element sums the
matching input elements. -/
def projIdx (dims : List Nat) (keep : Bool) (ix : List Nat) : List Nat :=
  if keep then
    ix.enum.map fun p => if p.1 ∈ dims then 0 else p.2
  else
    (ix.enum.filter fun p => decide (p.1 ∉ dims)).map Prod.snd

/-- Output shape of a multi-axis sum: reduced axes become 1 when kept and
are dropped otherwise. -/
def sumShape (sh : List Nat) (dims : List Nat) (keep : Bool) : List Nat :=
  if keep then
    sh.enum.map fun p => if p.1 ∈ dims then 1 else p.2
  else
    (sh.enum.filter fun p => decide (p.1 ∉ dims)).map Prod.snd

/-- Numpy `a.sum(dim, keepdims)` over a list of axes. -/
def arrSum (a : Arr) (dims : List Nat) (keep : Bool) : Arr :=
  ofFun (sumShape a.shape dims keep) a.dtype fun oi =>
    (((allIdx a.shape).filter fun ix => projIdx dims keep ix == oi).map
      (arrGet a)).sum

/-! ### Broadcast-mismatch reduction (src/nura/autograd/functional.py) -/

/-- Embedding of `mismatch` (src/nura/autograd/functional.py lines
119-120): the leaf's shape differs from the gradient's and its rank does
not exceed the gradient's rank. -/
def mismatch (t g : Arr) : Prop :=
  t.shape ≠ g.shape ∧ t.shape.length ≤ g.shape.length

instance (t g : Arr) : Decidable (mismatch t g) := by
  unfold mismatch
  infer_instance

/-- Embedding of `np.pad(tdim, (gndim - tndim, 0), constant_values=0)`:
the tensor shape left-padded with ZEROS to the gradient's rank
(src/nura/autograd/functional.py line 130). -/
def zerosPad (tdim : List Nat) (gndim : Nat) : List Nat :=
  List.replicate (gndim - tdim.length) 0 ++ tdim

/-- Embedding of `sumdims` (src/nura/autograd/functional.py lines
129-132): the axes where the zero-padded tensor shape disagrees with the
gradient shape, in ascending order (`np.where(mask)[0]`). -/
def sumdims (tdim gdim : List Nat) : List Nat :=
  (List.range gdim.length).filter fun i =>
    (zerosPad tdim gdim.length).getD i 0 != gdim.getD i 0

/-- Embedding of `sumgrad` (src/nura/autograd/functional.py lines
123-126): sum the gradient over `sumdims`, keeping the dimensions exactly
when the ranks agree. -/
def sumgrad (t g : Arr) : Arr :=
  arrSum g (sumdims t.shape g.shape) (t.shape.length == g.shape.length)

/-- The gradient as it is accumulated into a leaf: shape-reduced when the
shapes mismatch (src/nura/autograd/functional.py line 26). -/
def reduceGrad (t g : Arr) : Arr :=
  if mismatch t g then sumgrad t g else g

/-! ### The spec's description of the reduction (claim C2)

`specSumgradOnes` renders the claim's words: the gradient is summed over
exactly the axes where the tensor's shape, left-padded with SIZE-1
dimensions to the gradient's rank, disagrees with the gradient's shape;
dimensions are kept iff the ranks agree.  `specSumgradZeros` is the same
sentence with size-0 padding, which is what the code computes. -/

/-- Left-pad of a shape viewed as a function on axis positions. -/
def padFun (fill : Nat) (tdim : List Nat) (off : Nat) (i : Nat) : Nat :=
  if i < off then fill else tdim.getD (i - off) 0

/-- Axes where the padded tensor shape disagrees with the gradient shape,
for a given fill value of the padding. -/
def specDims (fill : Nat) (tdim gdim : List Nat) : List Nat :=
  (List.range gdim.length).filter fun i =>
    padFun fill tdim (gdim.length - tdim.length) i != gdim.getD i 0

/-- Claim C2's reduction: pad with size-1 dimensions. -/
def specSumgradOnes (t g : Arr) : Arr :=
  arrSum g (specDims 1 t.shape g.shape) (t.shape.length == g.shape.length)

/-- The amended reduction: pad with size-0 dimensions. -/
def specSumgradZeros (t g : Arr) : Arr :=
  arrSum g (specDims 0 t.shape g.shape) (t.shape.length == g.shape.length)

/-! ### Activation functions (src/nura/nn/functions.py) -/

/-- Embedding of `_ReLU.backward` (src/nura/nn/functions.py lines 13-17):
`mask = np.where(z > 0, 1, 0); return mask * grad`. -/
def reluBackward (z g : Arr) : Arr :=
  ⟨z.shape, z.data.zipWith (fun zv gv => (if 0 < zv then (1 : ℤ) else 0) * gv) g.data,
    g.dtype⟩

/-- Embedding of `_ReLU.tangent` (src/nura/nn/functions.py lines 19-23):
same mask applied to the incoming tangent. -/
def reluTangent (z g : Arr) : Arr :=
  ⟨z.shape, z.data.zipWith (fun zv gv => (if 0 < zv then (1 : ℤ) else 0) * gv) g.data,
    g.dtype⟩

/-- Embedding of `_LeakyReLU.backward` (src/nura/nn/functions.py lines
54-59): `mask = np.where(z >= 0, 1, slope); return mask * grad`. -/
def leakyReluBackward (slope : ℤ) (z g : Arr) : Arr :=
  ⟨z.shape, z.data.zipWith (fun zv gv => (if 0 ≤ zv then (1 : ℤ) else slope) * gv) g.data,
    g.dtype⟩

/-- Embedding of `_LeakyReLU.tangent` (src/nura/nn/functions.py lines
61-66): same mask applied to the incoming tangent. -/
def leakyReluTangent (slope : ℤ) (z g : Arr) : Arr :=
  ⟨z.shape, z.data.zipWith (fun zv gv => (if 0 ≤ zv then (1 : ℤ) else slope) * gv) g.data,
    g.dtype⟩

/-! ### Matrix multiply (src/deepnet/functions.py, class Matmul)

`Matmul.backward` builds an axis permutation with
`np.arange(ndim)` followed by a simultaneous swap of the entries at
positions -2 and -1, transposes each saved operand by that permutation,
and matrix-multiplies against the incoming gradient. -/

/-- Embedding of the permutation construction of `Matmul.backward`
(src/deepnet/functions.py lines 99-101): `np.arange(n)` with the last two
entries swapped. -/
def permOf (n : Nat) : List Nat :=
  ((List.range n).set (n - 2) (n - 1)).set (n - 1) (n - 2)

/-- Embedding of `np.transpose(a, perm)`: axis `k` of the result is axis
`perm[k]` of the input, so the result reads the input at the index whose
component `m` is the output component at the position of `m` in `perm`. -/
def transposeByPerm (perm : List Nat) (a : Arr) : Arr :=
  ofFun (perm.map fun p => a.shape.getD p 0) a.dtype fun ix =>
    arrGet a ((List.range a.shape.length).map fun m => ix.getD (perm.indexOf m) 0)

/-- Embedding of numpy `@` for stacked matrices with a common batch
prefix: contract the last axis of `a` with the second-to-last of `b`. -/
def matmulNd (a b : Arr) : Arr :=
  ofFun
    (a.shape.take (a.shape.length - 2)
      ++ [a.shape.getD (a.shape.length - 2) 0, b.shape.getD (b.shape.length - 1) 0])
    (promoteDT a.dtype b.dtype) fun ix =>
    ((List.range (a.shape.getD (a.shape.length - 1) 0)).map fun l =>
      arrGet a (ix.take (ix.length - 2) ++ [ix.getD (ix.length - 2) 0, l])
        * arrGet b (ix.take (ix.length - 2) ++ [l, ix.getD (ix.length - 1) 0])).sum

/-- Embedding of `Matmul.backward` (src/deepnet/functions.py lines
96-104): `grad_a = grad @ b.transpose(perm_b)`,
`grad_b = a.transpose(perm_a) @ grad`. -/
def matmulBackward (a b g : Arr) : Arr × Arr :=
  (matmulNd g (transposeByPerm (permOf b.shape.length) b),
   matmulNd (transposeByPerm (permOf a.shape.length) a) g)

/-! ### The autograd engine (src/nura/autograd)

Tensors are mutable Python objects; the embedding addresses them by id
in a store (`GState`), mirroring Python object identity
(`nura.utils.hashtensor` hashes `id(a)`). -/

/-- The differentiable operations used by the engine theorems, bundled
with their saved scalar parameters (the Python `Context` stores those).
`_ReLU` and `_LeakyReLU` are embedded from src/nura/nn/functions.py.
`mul` is modelled from the spec ("Mul: backward multiplies incoming
gradient by the *other* saved operand", section 4.1) — the nura
implementation (`nura/functional.py`) is not under src/, and
src/deepnet/functions.py class `Mul`, which is, implements exactly
this. -/
inductive Func
  | mul | relu | leaky (slope : ℤ)
deriving DecidableEq, Repr

/-- Context of one operation application: the operation and the ids of
the saved tensors, in the order supplied to forward (spec section 3:
"ordered list of saved tensors"). -/
structure Ctx where
  func : Func
  args : List Nat
deriving DecidableEq, Repr

/-- Graph node (src/nura/autograd/graph.py class `Node`): the tensor it
produces (or accumulates into) and its context — `none` for a
leaf-accumulator node (`Node(tensor, None, None)` in `getnode`). -/
structure Node where
  tid : Nat
  ctx : Option Ctx
deriving DecidableEq, Repr

/-- Modelled from the spec: `nura.tensors.Tensor` is not under src/.
Attributes per spec section 3: array payload, `requires_grad`
(`usegrad`), `is_leaf` (`leaf`), optional owned `grad`, optional producer
node (`backfn`). -/
structure TensorV where
  arr : Arr
  usegrad : Bool
  leaf : Bool
  grad : Option Arr
  backfn : Option Node
deriving DecidableEq, Repr

/-- The tensor store: tensors addressed by id. -/
abbrev GState := List TensorV

/-- In-place tensor mutation (`Tensor.mutate`), as a store update. -/
def updT (s : GState) (i : Nat) (f : TensorV → TensorV) : GState :=
  match s.get? i with
  | some t => s.set i (f t)
  | none => s

/-- Raw result of an Operation's backward: Python may return a bare
array or a tuple; `Node.apply` wraps a bare result into a 1-tuple
(src/nura/autograd/graph.py lines 26-29). -/
inductive BOut
  | one (a : Arr) | many (gs : List Arr)
deriving DecidableEq, Repr

/-- The backward functions of the operations: `Mul.backward` returns
`(b * grad, a * grad)` (src/deepnet/functions.py lines 56-61, spec
section 4.1); `_ReLU.backward` and `_LeakyReLU.backward` return a bare
masked gradient (src/nura/nn/functions.py).  `none` models a Python
TypeError on an arity mismatch. -/
def funcBackward : Func → List Arr → Arr → Option BOut
  | .mul, [a, b], g => do
      let ga ← arrMul b g
      let gb ← arrMul a g
      return .many [ga, gb]
  | .relu, [z], g => some (.one (reluBackward z g))
  | .leaky sl, [z], g => some (.one (leakyReluBackward sl z g))
  | _, _, _ => none

/-- The tangent functions of the operations: `Mul.jvp` returns
`tangent_a * b + tangent_b * a` (src/deepnet/functions.py lines 63-68);
`_ReLU.tangent` and `_LeakyReLU.tangent` mask the incoming tangent
(src/nura/nn/functions.py). -/
def funcTangent : Func → List Arr → List Arr → Option Arr
  | .mul, [a, b], [ta, tb] => do
      let x ← arrMul ta b
      let y ← arrMul tb a
      arrAdd x y
  | .relu, [z], [tz] => some (reluTangent z tz)
  | .leaky sl, [z], [tz] => some (leakyReluTangent sl z tz)
  | _, _, _ => none

/-- Embedding of `getnode` (src/nura/autograd/graph.py lines 49-52): a
leaf tensor that requires grad gets a fresh leaf-accumulator node;
otherwise the tensor's own `backfn` (possibly None). -/
def getnode (s : GState) (i : Nat) : Option Node :=
  match s.get? i with
  | some t => if t.leaf && t.usegrad then some ⟨i, none⟩ else t.backfn
  | none => none

/-- Embedding of `Node.children` (src/nura/autograd/graph.py lines
33-41): `None` when the node has no context (leaf accumulator); else the
nodes of the saved tensors — SKIPPING saved tensors that have no node
(`if isinstance(node, Node)`), the filtering claim C3 is about. -/
def children (s : GState) (n : Node) : Option (List Node) :=
  match n.ctx with
  | none => none
  | some c => some (c.args.filterMap (getnode s))

/-- Embedding of `Node.apply(grad, backward=True)`
(src/nura/autograd/graph.py lines 24-29): run the operation's backward
on the saved tensors and tuple-ify a bare result. -/
def nodeApply (s : GState) (n : Node) (g : Arr) : Option (List Arr) :=
  match n.ctx with
  | none => none
  | some c => do
      let args ← c.args.mapM fun i => (s.get? i).map (·.arr)
      let out ← funcBackward c.func args g
      return match out with
      | .one a => [a]
      | .many gs => gs

/-- Failure kinds of an engine run.  `noGraph`, `ambiguousSeed` and
`nonDiffType` are the validation errors of spec section 7; `attrNone`
models the Python AttributeError from `.children()` on a `None` node
(reachable only through an unchecked seed); `shapeMismatch` a numpy
broadcast failure; `applyFail` a raised error inside an operation's
backward; `badId` an invalid tensor reference (unreachable in well-formed
stores); `fuel` exhaustion of the step bound (the Python loop is
unbounded; all runs below get enough fuel). -/
inductive EErr
  | noGraph | ambiguousSeed | nonDiffType | attrNone
  | shapeMismatch | applyFail | badId | assertFail | fuel
deriving DecidableEq, Repr

/-- Result of `_backward`: the final store, or a failure together with
the store at failure time (accumulations made before the failure are
kept — the engine is not atomic, spec section 7). -/
inductive BackRes
  | ok (s : GState) | err (e : EErr) (s : GState)
deriving DecidableEq, Repr

/-- Embedding of `_backward`'s queue loop (src/nura/autograd/functional.py
lines 16-36), fuel-bounded.  Entries are popped from the front
(`popleft`) and appended at the back (`extend`): breadth-first.  A popped
leaf accumulates `old-or-zeros + reduced` into the tensor's grad, cast to
the tensor's dtype; a popped node with a non-empty child list invokes the
operation's backward once and enqueues the children zipped with the
returned gradients. -/
def backwardLoop : Nat → GState → List (Option Node × Arr) → BackRes
  | _, s, [] => .ok s
  | 0, s, _ :: _ => .err .fuel s
  | _ + 1, s, (none, _) :: _ => .err .attrNone s
  | fuel + 1, s, (some n, g) :: rest =>
    match s.get? n.tid with
    | none => .err .badId s
    | some t =>
      if t.leaf then
        match arrAdd (t.grad.getD (zerosLike t.arr)) (reduceGrad t.arr g) with
        | none => .err .shapeMismatch s
        | some ng =>
          backwardLoop fuel
            (updT s n.tid fun t0 => {t0 with grad := some (castArr ng t0.arr.dtype)}) rest
      else
        match children s n with
        | some ns =>
          if ns.isEmpty then backwardLoop fuel s rest
          else match nodeApply s n g with
            | none => .err .applyFail s
            | some gs => backwardLoop fuel s (rest ++ (ns.zip gs).map fun p => (some p.1, p.2))
        | none => backwardLoop fuel s rest

/-- Embedding of `_backwarderr` (src/nura/autograd/functional.py lines
39-54): no backward function; missing seed on a multi-element output;
non-floating seed. -/
def backwarderr (s : GState) (outId : Nat) (gOpt : Option Arr) : Option EErr :=
  match s.get? outId with
  | none => some .badId
  | some out =>
    if out.backfn = none then some .noGraph
    else if gOpt = none ∧ out.arr.shape.prod ≠ 1 then some .ambiguousSeed
    else match gOpt with
      | some g => if gradDT g.dtype = false then some .nonDiffType else none
      | none => none

/-- Embedding of `backward` (src/nura/autograd/functional.py lines 8-13):
validate, default the seed to ones-like, seed the queue with the output's
backfn. -/
def backwardRun (fuel : Nat) (s : GState) (outId : Nat) (gOpt : Option Arr) : BackRes :=
  match backwarderr s outId gOpt with
  | some e => .err e s
  | none =>
    match s.get? outId with
    | none => .err .badId s
    | some out => backwardLoop fuel s [(out.backfn, gOpt.getD (onesLike out.arr))]

/-- Lookup in `inptmap` (a Python dict keyed by tensor identity). -/
def lookupMap : List (Nat × Arr) → Nat → Option Arr
  | [], _ => none
  | (k, a) :: r, k2 => if k = k2 then some a else lookupMap r k2

/-- In-place update of `inptmap` (dict assignment keeps insertion
order). -/
def updMap : List (Nat × Arr) → Nat → Arr → List (Nat × Arr)
  | [], _, _ => []
  | (k, a) :: r, k2, v => if k = k2 then (k, v) :: r else (k, a) :: updMap r k2 v

/-- Result of `_grad`: the input-to-gradient mapping in insertion order
and the (unmutated) store, or a failure with the store. -/
inductive GradRes
  | ok (m : List (Nat × Arr)) (s : GState) | err (e : EErr) (s : GState)
deriving DecidableEq, Repr

/-- Embedding of `_grad`'s queue loop (src/nura/autograd/functional.py
lines 69-90).  Differences from `_backward` faithfully kept: the
accumulation target is membership in `inptmap` (not leafness), the
accumulated value goes into the map — no tensor is mutated — and the
enqueue is a separate `if` (it also fires for accumulated nodes that
have children). `gradStep` is the body of the accumulation branch
(lines 81-86): add the reduced gradient to the map entry and cast to the
tensor's dtype; `none` models a numpy broadcast failure in the `+`. -/
def gradStep (m : List (Nat × Arr)) (k : Nat) (t : TensorV) (g : Arr) :
    Option (List (Nat × Arr)) :=
  match lookupMap m k with
  | some old =>
    match arrAdd old (reduceGrad t.arr g) with
    | none => none
    | some ng => some (updMap m k (castArr ng t.arr.dtype))
  | none => some m

def gradLoop : Nat → GState → List (Nat × Arr) → List (Option Node × Arr) → GradRes
  | _, s, m, [] => .ok m s
  | 0, s, _, _ :: _ => .err .fuel s
  | _ + 1, s, _, (none, _) :: _ => .err .attrNone s
  | fuel + 1, s, m, (some n, g) :: rest =>
    match s.get? n.tid with
    | none => .err .badId s
    | some t =>
      match gradStep m n.tid t g with
      | none => .err .shapeMismatch s
      | some m2 =>
        match children s n with
        | some ns =>
          if ns.isEmpty then gradLoop fuel s m2 rest
          else match nodeApply s n g with
            | none => .err .applyFail s
            | some gs => gradLoop fuel s m2 (rest ++ (ns.zip gs).map fun p => (some p.1, p.2))
        | none => gradLoop fuel s m2 rest

/-- Whether every listed tensor has a floating dtype (`gradtensor`). -/
def allGradDT (s : GState) (inpt : List Nat) : Bool :=
  inpt.all fun i =>
    match s.get? i with
    | some t => gradDT t.arr.dtype
    | none => false

/-- Embedding of `_graderr` (src/nura/autograd/functional.py lines
93-112): non-differentiable inputs; no backward function; missing seed on
a multi-element output; non-floating seed. -/
def graderr (s : GState) (inpt : List Nat) (outId : Nat) (gOpt : Option Arr) :
    Option EErr :=
  if allGradDT s inpt = false then some .nonDiffType
  else match s.get? outId with
  | none => some .badId
  | some out =>
    if out.backfn = none then some .noGraph
    else if gOpt = none ∧ out.arr.shape.prod ≠ 1 then some .ambiguousSeed
    else match gOpt with
      | some g => if gradDT g.dtype = false then some .nonDiffType else none
      | none => none

/-- Embedding of `grad`/`_grad` setup (src/nura/autograd/functional.py
lines 57-75): validate, build the id-keyed map sending each input to a
zeros-like gradient in input order, seed the queue with the output's
backfn. -/
def gradRun (fuel : Nat) (s : GState) (inpt : List Nat) (outId : Nat)
    (gOpt : Option Arr) : GradRes :=
  match graderr s inpt outId gOpt with
  | some e => .err e s
  | none =>
    match s.get? outId with
    | none => .err .badId s
    | some out =>
      let m := inpt.map fun i =>
        (i, match s.get? i with
            | some t => zerosLike t.arr
            | none => zerosLike out.arr)
      gradLoop fuel s m [(out.backfn, gOpt.getD (onesLike out.arr))]

/-- Process-wide autograd mode flags.  The scoped manager
(`nura.autograd(...)`, `nura.usegrad()`, `nura.reversemode()`,
`nura.forwardmode()`) is not under src/; the three flags are modelled
from the spec (section 3, Mode State). -/
structure Mode where
  enabled : Bool
  rev : Bool
  fwd : Bool
deriving DecidableEq, Repr

/-- Modelled from the spec: `Context.usesgrad()`
(nura/autograd/function.py is not under src/) — whether any saved tensor
requires gradients (spec section 4.2: "none of the Context's saved
tensors require gradients"). -/
def ctxUsesgrad (s : GState) (c : Ctx) : Bool :=
  c.args.any fun i =>
    match s.get? i with
    | some t => t.usegrad
    | none => false

/-- Embedding of `getgrads` (src/nura/autograd/graph.py lines 68-71): the
saved tensors' stored tangents, zero-filled when absent. -/
def getgrads (s : GState) (c : Ctx) : List Arr :=
  c.args.map fun i =>
    match s.get? i with
    | some t => t.grad.getD (zerosLike t.arr)
    | none => ⟨[], [], .f32⟩

/-- Embedding of `genout` (src/nura/autograd/graph.py lines 55-65): a
no-op unless some saved tensor requires grad; under reverse mode attach
the new node as the output's backfn and mark it
`usegrad=True, leaf=False`; under forward mode eagerly compute the
tangent from the saved tensors' stored tangents (zero-filled when
absent), store it as the output's grad and mark it non-leaf — leaving
`backfn` untouched.  `none` models a raised Python error from the
tangent call. -/
def genout (m : Mode) (s : GState) (outId : Nat) (c : Ctx) : Option GState :=
  if ¬ ctxUsesgrad s c then some s
  else if m.enabled && m.rev then
    some (updT s outId fun t =>
      {t with backfn := some ⟨outId, some c⟩, usegrad := true, leaf := false})
  else if m.enabled && m.fwd then
    match c.args.mapM fun i => (s.get? i).map (·.arr) with
    | none => none
    | some args =>
      match funcTangent c.func args (getgrads s c) with
      | none => none
      | some tg =>
        some (updT s outId fun t =>
          {t with usegrad := true, grad := some tg, leaf := false})
  else some s

/-- `Function.apply` for Mul: run the forward kernel eagerly, allocate
the output as a fresh leaf tensor with no node, and pass it to graph
construction (spec section 2 data flow; forward kernel from
src/deepnet/functions.py class `Mul`). -/
def applyMul (m : Mode) (s : GState) (i j : Nat) : Option (GState × Nat) :=
  match s.get? i, s.get? j with
  | some ta, some tb => do
    let d ← arrMul ta.arr tb.arr
    let s1 := s ++ [⟨d, false, true, none, none⟩]
    let s2 ← genout m s1 s.length ⟨.mul, [i, j]⟩
    return (s2, s.length)
  | _, _ => none

/-- Embedding of `_vjperr` (src/nura/autograd/functional.py lines
173-182): dtype checks only — in particular NO check that the output of
`f` will have a backward function. -/
def vjperr (s : GState) (inpt : List Nat) (vec : Arr) : Option EErr :=
  if allGradDT s inpt = false then some .nonDiffType
  else if gradDT vec.dtype = false then some .nonDiffType
  else none

/-- Modelled from the spec for the missing `Tensor.mutated`: append fresh
copies of the inputs marked `usegrad=True, grad=None, leaf=True`
(src/nura/autograd/functional.py line 152; spec section 4.4: "fresh
copies of inputs marked as leaves"). -/
def appendCopies (s : GState) (inpt : List Nat) : GState × List Nat :=
  inpt.foldl
    (fun p i =>
      match s.get? i with
      | some t =>
        (p.1 ++ [{t with usegrad := true, grad := none, leaf := true}],
         p.2 ++ [p.1.length])
      | none => p)
    (s, [])

/-- Embedding of `vjp`/`_vjp` (src/nura/autograd/functional.py lines
141-170): validate dtypes, re-execute `f` on fresh leaf copies of the
inputs under a reverse-mode scope, then run `_grad` seeded with the
cotangent — with no intervening check of the output's backfn. -/
def vjpRun (fuel : Nat) (s : GState) (inpt : List Nat) (vec : Arr)
    (f : Mode → GState → List Nat → GState × Nat) : GradRes :=
  match vjperr s inpt vec with
  | some e => .err e s
  | none =>
    let p := appendCopies s inpt
    let q := f ⟨true, true, false⟩ p.1 p.2
    match q.1.get? q.2 with
    | none => .err .badId q.1
    | some out =>
      let m := p.2.map fun i =>
        (i, match q.1.get? i with
            | some t => zerosLike t.arr
            | none => zerosLike out.arr)
      gradLoop fuel q.1 m [(out.backfn, vec)]

/-- Result of `_jvp`: the final store, the output id and the tangent
read off the output — or a failure (`assertFail` models
`assert out.grad is not None`). -/
inductive JvpRes
  | ok (s : GState) (outId : Nat) (tangent : Arr) | err (e : EErr) (s : GState)
deriving DecidableEq, Repr

/-- Embedding of `_jvperr` (src/nura/autograd/functional.py lines
215-224): dtype checks on inputs and tangents. -/
def jvperr (s : GState) (inpt : List Nat) (vecs : List Arr) : Option EErr :=
  if allGradDT s inpt = false then some .nonDiffType
  else if (vecs.all fun v => gradDT v.dtype) = false then some .nonDiffType
  else none

/-- Modelled from the spec for the missing `Tensor.mutated`: append
copies of the inputs with `usegrad=True` and the matching tangent
attached as `grad` (src/nura/autograd/functional.py line 198). -/
def appendWithTangents (s : GState) (inpt : List Nat) (vecs : List Arr) :
    GState × List Nat :=
  (inpt.zip vecs).foldl
    (fun p iv =>
      match s.get? iv.1 with
      | some t =>
        (p.1 ++ [{t with usegrad := true, grad := some iv.2}],
         p.2 ++ [p.1.length])
      | none => p)
    (s, [])

/-- Embedding of `jvp`/`_jvp` (src/nura/autograd/functional.py lines
185-212): validate dtypes, attach each tangent to its corresponding
input, re-execute `f` under a scoped forward-mode context, and return the
output paired with the tangent read directly off the output — no graph
walk. -/
def jvpRun (s : GState) (inpt : List Nat) (vecs : List Arr)
    (f : Mode → GState → List Nat → GState × Nat) : JvpRes :=
  match jvperr s inpt vecs with
  | some e => .err e s
  | none =>
    let p := appendWithTangents s inpt vecs
    let q := f ⟨true, false, true⟩ p.1 p.2
    match q.1.get? q.2 with
    | none => .err .badId q.1
    | some out =>
      match out.grad with
      | none => .err .assertFail q.1
      | some g => .ok q.1 q.2 g

/-! ### Concrete scenarios used by the claim theorems -/

/-- A leaf tensor holding `[2.0]` that does NOT require gradients. -/
def mulA : TensorV := ⟨⟨[1], [2], .f32⟩, false, true, none, none⟩

/-- A leaf tensor holding `[3.0]` that requires gradients. -/
def mulB : TensorV := ⟨⟨[1], [3], .f32⟩, true, true, none, none⟩

/-- The output `c = mul(a, b)` with its producer node saving `[a, b]`. -/
def mulC : TensorV := ⟨⟨[1], [6], .f32⟩, true, false, none, some ⟨2, some ⟨.mul, [0, 1]⟩⟩⟩

/-- Store for the `c = a * b` scenario (ids 0, 1, 2). -/
def mulState : GState := [mulA, mulB, mulC]

/-- A leaf tensor holding `[1.0]` that requires gradients. -/
def reluX : TensorV := ⟨⟨[1], [1], .f32⟩, true, true, none, none⟩

/-- First relu output of `reluX` (an independent graph). -/
def reluY1 : TensorV := ⟨⟨[1], [1], .f32⟩, true, false, none, some ⟨1, some ⟨.relu, [0]⟩⟩⟩

/-- Second relu output of `reluX` (an independent graph). -/
def reluY2 : TensorV := ⟨⟨[1], [1], .f32⟩, true, false, none, some ⟨2, some ⟨.relu, [0]⟩⟩⟩

/-- Store for the twice-differentiated relu scenario (ids 0, 1, 2). -/
def reluState : GState := [reluX, reluY1, reluY2]

/-- A plain floating leaf with no graph. -/
def plainLeaf : TensorV := ⟨⟨[1], [2], .f32⟩, false, true, none, none⟩

/-- The identity function, as a function under differentiation: it
returns its first input unchanged (so the output has no producer
node). -/
def idFun : Mode → GState → List Nat → GState × Nat := fun _ s ids => (s, ids.headD 0)

/-- A two-element output tensor that has a producer node. -/
def wideOut : TensorV := ⟨⟨[2], [1, 2], .f32⟩, true, false, none, some ⟨1, none⟩⟩

/-- A leaf with tangent `[1.0]` attached (forward mode). -/
def tangA : TensorV := ⟨⟨[1], [2], .f32⟩, true, true, some ⟨[1], [1], .f32⟩, none⟩

/-- A leaf with tangent `[0.0]` attached (forward mode). -/
def tangB : TensorV := ⟨⟨[1], [3], .f32⟩, true, true, some ⟨[1], [0], .f32⟩, none⟩

/-- A leaf with tangent `[5.0]` attached (forward mode). -/
def tangA5 : TensorV := ⟨⟨[1], [2], .f32⟩, true, true, some ⟨[1], [5], .f32⟩, none⟩

/-- A grad-requiring leaf with NO tangent attached. -/
def tangBnone : TensorV := ⟨⟨[1], [3], .f32⟩, true, true, none, none⟩

/-- Forward-mode flags (`nura.autograd(enabled=True, reverse=False,
forward=True)`). -/
def fwdMode : Mode := ⟨true, false, true⟩

/-- Reverse-mode flags (`nura.autograd(enabled=True, reverse=True,
forward=False)`). -/
def revMode : Mode := ⟨true, true, false⟩

/-- A freshly allocated output of a Mul forward kernel: a leaf with no
node, before graph construction. -/
def freshMulOut : TensorV := ⟨⟨[1], [6], .f32⟩, false, true, none, none⟩

/-- One Mul application, as a function under differentiation. -/
def mulFun : Mode → GState → List Nat → GState × Nat := fun m s ids =>
  (applyMul m s (ids.getD 0 0) (ids.getD 1 0)).getD (s, 0)

/-- Dtype discipline of a store: every populated gradient has the dtype
of its tensor (the invariant of claim C10). -/
def gradsTyped (s : GState) : Bool :=
  s.all fun t =>
    match t.grad with
    | some ga => ga.dtype == t.arr.dtype
    | none => true

/-- Dtype discipline of an `inptmap`: every entry's gradient has the
dtype of the tensor it belongs to (claim C10 for `_grad`). -/
def mapTyped (s : GState) (m : List (Nat × Arr)) : Bool :=
  m.all fun p =>
    match s.get? p.1 with
    | some t => p.2.dtype == t.arr.dtype
    | none => false

-- ============ theorems ============

theorem allIdx_length (sh : List Nat) : (allIdx sh).length = sh.prod := by
  induction sh with
  | nil => rfl
  | cons d ds ih =>
    show ((List.range d).map fun i => (allIdx ds).map fun ix => i :: ix).flatten.length
        = (d :: ds).prod
    rw [List.length_flatten, List.map_map]
    have hconst : (List.length ∘ fun i => (allIdx ds).map fun ix => i :: ix)
        = fun _ : Nat => ds.prod := by
      funext i
      simp [ih]
    rw [hconst, List.map_const', List.sum_replicate, List.length_range,
      smul_eq_mul, List.prod_cons]

theorem flatPos_lt {sh ix : List Nat} (h : idxOk sh ix = true) :
    flatPos sh ix < sh.prod := by
  induction sh generalizing ix with
  | nil =>
    cases ix with
    | nil => simp [flatPos]
    | cons i ix => simp [idxOk] at h
  | cons d ds ih =>
    cases ix with
    | nil => simp [idxOk] at h
    | cons i ix =>
      simp only [idxOk, Bool.and_eq_true, decide_eq_true_eq] at h
      have hr := ih h.2
      have hP : 0 < ds.prod := Nat.pos_of_ne_zero (by omega)
      calc flatPos (d :: ds) (i :: ix) = i * ds.prod + flatPos ds ix := rfl
        _ < i * ds.prod + ds.prod := by omega
        _ = (i + 1) * ds.prod := by ring
        _ ≤ d * ds.prod := Nat.mul_le_mul_right _ (by omega)
        _ = (d :: ds).prod := rfl

theorem flatten_get?_const {α : Type} (L : List (List α)) (B q r : Nat)
    (hB : ∀ l ∈ L, l.length = B) (hq : q < L.length) (hr : r < B) :
    L.flatten.get? (q * B + r) = (L.get? q).bind fun l => l.get? r := by
  induction L generalizing q with
  | nil => simp at hq
  | cons x xs ih =>
    cases q with
    | zero =>
      have hx : x.length = B := hB x (by simp)
      rw [List.flatten_cons, Nat.zero_mul, Nat.zero_add,
        List.get?_append (by omega)]
      simp
    | succ q =>
      have hx : x.length = B := hB x (by simp)
      have hge : x.length ≤ (q + 1) * B + r := by
        have : B ≤ (q + 1) * B := Nat.le_mul_of_pos_left _ (by omega)
        omega
      rw [List.flatten_cons, List.get?_append_right hge]
      have harith : (q + 1) * B + r - x.length = q * B + r := by
        rw [hx]; ring_nf; omega
      rw [harith]
      exact ih q (fun l hl => hB l (List.mem_cons_of_mem _ hl)) (by simpa using hq)

theorem allIdx_get? {sh ix : List Nat} (h : idxOk sh ix = true) :
    (allIdx sh).get? (flatPos sh ix) = some ix := by
  induction sh generalizing ix with
  | nil =>
    cases ix with
    | nil => rfl
    | cons i ix => simp [idxOk] at h
  | cons d ds ih =>
    cases ix with
    | nil => simp [idxOk] at h
    | cons i ix =>
      simp only [idxOk, Bool.and_eq_true, decide_eq_true_eq] at h
      have hr := flatPos_lt h.2
      show (allIdx (d :: ds)).get? (i * ds.prod + flatPos ds ix) = some (i :: ix)
      unfold allIdx
      rw [flatten_get?_const _ ds.prod i (flatPos ds ix)
        (by intro l hl; simp only [List.mem_map] at hl
            obtain ⟨j, _, rfl⟩ := hl
            simp [allIdx_length])
        (by simp [h.1]) hr]
      rw [List.get?_map, List.get?_range h.1]
      simp only [Option.map_some', Option.some_bind]
      rw [List.get?_map, ih h.2]
      rfl

theorem arrGet_ofFun {sh ix : List Nat} (dt : DType) (f : List Nat → ℤ)
    (h : idxOk sh ix = true) : arrGet (ofFun sh dt f) ix = f ix := by
  unfold arrGet ofFun
  simp only
  rw [List.getD_eq_get?, List.get?_map, allIdx_get? h]
  rfl

theorem shape_ofFun (sh : List Nat) (dt : DType) (f : List Nat → ℤ) :
    (ofFun sh dt f).shape = sh := rfl

/-- Element of `List.zipWith` at an in-range position. -/
theorem zipWith_getD {f : ℤ → ℤ → ℤ} {l1 l2 : List ℤ} {i : Nat}
    (h1 : i < l1.length) (h2 : i < l2.length) :
    (List.zipWith f l1 l2).getD i 0 = f (l1.getD i 0) (l2.getD i 0) := by
  induction l1 generalizing l2 i with
  | nil => simp at h1
  | cons x xs ih =>
    cases l2 with
    | nil => simp at h2
    | cons y ys =>
      cases i with
      | zero => rfl
      | succ i =>
        simp only [List.zipWith, List.getD, List.get?]
        exact ih (by simpa using h1) (by simpa using h2)

theorem getD_replicate_append (k x : Nat) (l : List Nat) (i : Nat) :
    (List.replicate k x ++ l).getD i 0 = if i < k then x else l.getD (i - k) 0 := by
  induction k generalizing i with
  | zero => simp
  | succ k ih =>
    cases i with
    | zero => simp [List.replicate]
    | succ i =>
      simp only [List.replicate, List.cons_append, List.getD_cons_succ, ih]
      by_cases h : i < k
      · simp [h, Nat.succ_lt_succ h]
      · have : ¬ i + 1 < k + 1 := by omega
        simp [h, this, Nat.succ_sub_succ]

theorem sumdims_eq_specDims_zero (tdim gdim : List Nat) :
    sumdims tdim gdim = specDims 0 tdim gdim := by
  unfold sumdims specDims
  apply List.filter_congr
  intro i _
  unfold zerosPad padFun
  rw [getD_replicate_append]

/-- Claim C2, counterexample.  The claim describes `sumdims` as comparing
the tensor shape left-padded with SIZE-1 dimensions against the gradient
shape; the code pads with zeros (`np.pad(..., constant_values=0)`).  For a
leaf of shape `(4,)` and a gradient of shape `(1, 4)` the two disagree:
the code sums over axis 0 (a zero pad entry differs from the gradient's
size-1 axis) and produces shape `(4,)`, while the claim's reading sums
over no axis and leaves shape `(1, 4)`. -/
theorem c2_counterexample :
    mismatch ⟨[4], [0, 0, 0, 0], .f32⟩ ⟨[1, 4], [1, 2, 3, 4], .f32⟩ ∧
    sumgrad ⟨[4], [0, 0, 0, 0], .f32⟩ ⟨[1, 4], [1, 2, 3, 4], .f32⟩ ≠
      specSumgradOnes ⟨[4], [0, 0, 0, 0], .f32⟩ ⟨[1, 4], [1, 2, 3, 4], .f32⟩ ∧
    sumdims [4] [1, 4] = [0] ∧ specDims 1 [4] [1, 4] = [] := by
  refine ⟨⟨by decide, by decide⟩, by decide, by decide, by decide⟩

/-- Claim C2 (amended): the reduced gradient accumulated into a leaf is
the incoming gradient summed over exactly the axes where the tensor's
shape, left-padded with SIZE-0 dimensions to the gradient's rank,
disagrees with the gradient's shape, with the summed dimensions kept iff
the tensor's rank equals the gradient's rank; in particular a leaf of
shape `(4,)` receiving a gradient of shape `(5, 4)` gets the sum over
axis 0, of shape `(4,)`. -/
theorem c2_amended :
    (∀ t g : Arr, sumgrad t g = specSumgradZeros t g) ∧
    sumdims [4] [5, 4] = [0] ∧
    sumgrad ⟨[4], [0, 0, 0, 0], .f32⟩
        ⟨[5, 4], [0, 1, 2, 3, 4, 5, 6, 7, 8, 9, 10, 11, 12, 13, 14, 15, 16, 17, 18, 19],
          .f32⟩
      = ⟨[4], [40, 45, 50, 55], .f32⟩ := by
  refine ⟨fun t g => ?_, by decide, by decide⟩
  unfold sumgrad specSumgradZeros
  rw [sumdims_eq_specDims_zero]

/-- Claim C9: at an element where the saved pre-activation input is
exactly zero, `_LeakyReLU.backward` and `_LeakyReLU.tangent` multiply the
incoming value by 1 (their mask tests `z >= 0`), not by the slope, while
`_ReLU.backward` multiplies by 0 there (its mask tests `z > 0`). -/
theorem c9_zero_threshold (slope : ℤ) (z g : Arr) (i : Nat)
    (h1 : i < z.data.length) (h2 : i < g.data.length)
    (hz : z.data.getD i 0 = 0) :
    (leakyReluBackward slope z g).data.getD i 0 = g.data.getD i 0 ∧
    (leakyReluTangent slope z g).data.getD i 0 = g.data.getD i 0 ∧
    (reluBackward z g).data.getD i 0 = 0 := by
  unfold leakyReluBackward leakyReluTangent reluBackward
  simp only [zipWith_getD h1 h2, hz]
  norm_num

/-! ### Engine helper lemmas -/

theorem updT_get? (s : GState) (i j : Nat) (f : TensorV → TensorV) :
    (updT s i f).get? j = if i = j then (s.get? i).map f else s.get? j := by
  unfold updT
  cases h : s.get? i with
  | none =>
    simp only [h]
    by_cases hij : i = j
    · subst hij
      rw [if_pos rfl, h, Option.map_none']
    · simp [hij]
  | some t =>
    simp only [h]
    by_cases hij : i = j
    · subst hij
      rw [List.get?_set_eq, h]
      simp
    · rw [List.get?_set_ne _ _ hij]
      simp [hij]

theorem updMap_keys (m : List (Nat × Arr)) (k : Nat) (v : Arr) :
    (updMap m k v).map Prod.fst = m.map Prod.fst := by
  induction m with
  | nil => rfl
  | cons p r ih =>
    cases p with
    | mk a b =>
      simp only [updMap]
      by_cases h : a = k
      · simp [h]
      · simp [h, ih]

theorem updMap_mem {m : List (Nat × Arr)} {k : Nat} {v : Arr} {p : Nat × Arr}
    (h : p ∈ updMap m k v) : p ∈ m ∨ p = (k, v) := by
  induction m with
  | nil => simp [updMap] at h
  | cons q r ih =>
    cases q with
    | mk a b =>
      simp only [updMap] at h
      by_cases hak : a = k
      · rw [if_pos hak] at h
        rcases List.mem_cons.mp h with h1 | h1
        · right
          rw [h1, hak]
        · left
          exact List.mem_cons_of_mem _ h1
      · rw [if_neg hak] at h
        rcases List.mem_cons.mp h with h1 | h1
        · left
          simp [h1]
        · rcases ih h1 with h2 | h2
          · left
            exact List.mem_cons_of_mem _ h2
          · right
            exact h2

/-- One accumulation step of `_grad` never changes the key list of
`inptmap`. -/
theorem gradStep_keys {m : List (Nat × Arr)} {k : Nat} {t : TensorV} {g : Arr}
    {m2 : List (Nat × Arr)} (h : gradStep m k t g = some m2) :
    m2.map Prod.fst = m.map Prod.fst := by
  unfold gradStep at h
  cases hlk : lookupMap m k with
  | none =>
    simp only [hlk, Option.some.injEq] at h
    rw [← h]
  | some old =>
    simp only [hlk] at h
    cases hadd : arrAdd old (reduceGrad t.arr g) with
    | none =>
      simp only [hadd] at h
      exact (Option.noConfusion h)
    | some ng =>
      simp only [hadd, Option.some.injEq] at h
      rw [← h, updMap_keys]

/-- `_grad`'s loop never mutates the store and never changes the key list
of `inptmap`. -/
theorem gradLoop_frame : ∀ (fuel : Nat) {s : GState} {m : List (Nat × Arr)}
    {q : List (Option Node × Arr)} {m2 : List (Nat × Arr)} {s2 : GState},
    gradLoop fuel s m q = .ok m2 s2 → s2 = s ∧ m2.map Prod.fst = m.map Prod.fst := by
  intro fuel
  induction fuel with
  | zero =>
    intro s m q m2 s2 h
    cases q with
    | nil =>
      simp only [gradLoop, GradRes.ok.injEq] at h
      exact ⟨h.2.symm, by rw [h.1]⟩
    | cons a q => exact (GradRes.noConfusion h)
  | succ fuel ih =>
    intro s m q m2 s2 h
    match q with
    | [] =>
      simp only [gradLoop, GradRes.ok.injEq] at h
      exact ⟨h.2.symm, by rw [h.1]⟩
    | (none, g) :: rest => exact (GradRes.noConfusion h)
    | (some n, g) :: rest =>
      simp only [gradLoop] at h
      cases hget : s.get? n.tid with
      | none =>
        simp only [hget] at h
        exact (GradRes.noConfusion h)
      | some t =>
        simp only [hget] at h
        cases hstep : gradStep m n.tid t g with
        | none =>
          simp only [hstep] at h
          exact (GradRes.noConfusion h)
        | some mm =>
          simp only [hstep] at h
          have hkeys := gradStep_keys hstep
          cases hch : children s n with
          | none =>
            simp only [hch] at h
            have := ih h
            exact ⟨this.1, this.2.trans hkeys⟩
          | some ns =>
            simp only [hch] at h
            by_cases hemp : ns.isEmpty
            · rw [if_pos hemp] at h
              have := ih h
              exact ⟨this.1, this.2.trans hkeys⟩
            · rw [if_neg hemp] at h
              cases hap : nodeApply s n g with
              | none =>
                simp only [hap] at h
                exact (GradRes.noConfusion h)
              | some gs =>
                simp only [hap] at h
                have := ih h
                exact ⟨this.1, this.2.trans hkeys⟩

/-- Writing a dtype-cast gradient into a tensor preserves the dtype
discipline of the store. -/
theorem setGrad_typed {s : GState} {i : Nat} {ng : Arr}
    (hs : gradsTyped s = true) :
    gradsTyped (updT s i fun t0 => {t0 with grad := some (castArr ng t0.arr.dtype)})
      = true := by
  unfold updT
  cases hget : s.get? i with
  | none => exact hs
  | some t0 =>
    unfold gradsTyped at hs ⊢
    rw [List.all_eq_true] at hs ⊢
    intro x hx
    rcases List.mem_or_eq_of_mem_set hx with h1 | h1
    · exact hs x h1
    · subst h1
      simp [castArr]

theorem backwardLoop_typed : ∀ (fuel : Nat) {s : GState}
    {q : List (Option Node × Arr)} {s2 : GState},
    gradsTyped s = true → backwardLoop fuel s q = .ok s2 → gradsTyped s2 = true := by
  intro fuel
  induction fuel with
  | zero =>
    intro s q s2 hs h
    cases q with
    | nil =>
      simp only [backwardLoop, BackRes.ok.injEq] at h
      rw [← h]
      exact hs
    | cons a q => exact (BackRes.noConfusion h)
  | succ fuel ih =>
    intro s q s2 hs h
    match q with
    | [] =>
      simp only [backwardLoop, BackRes.ok.injEq] at h
      rw [← h]
      exact hs
    | (none, g) :: rest => exact (BackRes.noConfusion h)
    | (some n, g) :: rest =>
      simp only [backwardLoop] at h
      cases hget : s.get? n.tid with
      | none =>
        simp only [hget] at h
        exact (BackRes.noConfusion h)
      | some t =>
        simp only [hget] at h
        by_cases hleaf : t.leaf = true
        · rw [if_pos hleaf] at h
          cases hadd : arrAdd (t.grad.getD (zerosLike t.arr)) (reduceGrad t.arr g) with
          | none =>
            simp only [hadd] at h
            exact (BackRes.noConfusion h)
          | some ng =>
            simp only [hadd] at h
            exact ih (setGrad_typed hs) h
        · rw [if_neg hleaf] at h
          cases hch : children s n with
          | none =>
            simp only [hch] at h
            exact ih hs h
          | some ns =>
            simp only [hch] at h
            by_cases hemp : ns.isEmpty
            · rw [if_pos hemp] at h
              exact ih hs h
            · rw [if_neg hemp] at h
              cases hap : nodeApply s n g with
              | none =>
                simp only [hap] at h
                exact (BackRes.noConfusion h)
              | some gs =>
                simp only [hap] at h
                exact ih hs h

/-- One accumulation step of `_grad` preserves the dtype discipline of
the map. -/
theorem gradStep_mapTyped {s : GState} {m : List (Nat × Arr)} {k : Nat}
    {t : TensorV} {g : Arr} {m2 : List (Nat × Arr)}
    (hget : s.get? k = some t) (hm : mapTyped s m = true)
    (h : gradStep m k t g = some m2) : mapTyped s m2 = true := by
  unfold gradStep at h
  cases hlk : lookupMap m k with
  | none =>
    simp only [hlk, Option.some.injEq] at h
    rw [← h]
    exact hm
  | some old =>
    simp only [hlk] at h
    cases hadd : arrAdd old (reduceGrad t.arr g) with
    | none =>
      simp only [hadd] at h
      exact (Option.noConfusion h)
    | some ng =>
      simp only [hadd, Option.some.injEq] at h
      rw [← h]
      unfold mapTyped at hm ⊢
      rw [List.all_eq_true] at hm ⊢
      intro p hp
      rcases updMap_mem hp with h1 | h1
      · exact hm p h1
      · subst h1
        have hget2 : s[k]? = some t := by
          rw [← List.get?_eq_getElem?]
          exact hget
        simp [hget, hget2, castArr]

theorem gradLoop_mapTyped : ∀ (fuel : Nat) {s : GState} {m : List (Nat × Arr)}
    {q : List (Option Node × Arr)} {m2 : List (Nat × Arr)} {s2 : GState},
    mapTyped s m = true → gradLoop fuel s m q = .ok m2 s2 → mapTyped s m2 = true := by
  intro fuel
  induction fuel with
  | zero =>
    intro s m q m2 s2 hm h
    cases q with
    | nil =>
      simp only [gradLoop, GradRes.ok.injEq] at h
      rw [← h.1]
      exact hm
    | cons a q => exact (GradRes.noConfusion h)
  | succ fuel ih =>
    intro s m q m2 s2 hm h
    match q with
    | [] =>
      simp only [gradLoop, GradRes.ok.injEq] at h
      rw [← h.1]
      exact hm
    | (none, g) :: rest => exact (GradRes.noConfusion h)
    | (some n, g) :: rest =>
      simp only [gradLoop] at h
      cases hget : s.get? n.tid with
      | none =>
        simp only [hget] at h
        exact (GradRes.noConfusion h)
      | some t =>
        simp only [hget] at h
        cases hstep : gradStep m n.tid t g with
        | none =>
          simp only [hstep] at h
          exact (GradRes.noConfusion h)
        | some mm =>
          simp only [hstep] at h
          have hmm := gradStep_mapTyped hget hm hstep
          cases hch : children s n with
          | none =>
            simp only [hch] at h
            exact ih hmm h
          | some ns =>
            simp only [hch] at h
            by_cases hemp : ns.isEmpty
            · rw [if_pos hemp] at h
              exact ih hmm h
            · rw [if_neg hemp] at h
              cases hap : nodeApply s n g with
              | none =>
                simp only [hap] at h
                exact (GradRes.noConfusion h)
              | some gs =>
                simp only [hap] at h
                exact ih hmm h

/-! ### Claim theorems for the engine -/

/-- Claim C1: whenever the backward traversal pops a (node, gradient)
pair whose tensor is a leaf, it accumulates the shape-reduced incoming
gradient into that tensor's grad BY ADDITION — the old gradient defaults
to a zeros-like array when absent, and the stored value becomes
`(old + reduced).to(dtype)`, never plainly the incoming gradient.  The
second conjunct runs two full backward calls over two independent relu
graphs into the same leaf (`x.grad` accumulates `2`, then `3`, giving
`5`). -/
theorem c1_leaf_accumulation :
    (∀ (fuel : Nat) (s : GState) (n : Node) (g : Arr)
        (rest : List (Option Node × Arr)) (t : TensorV) (ng : Arr),
      s.get? n.tid = some t → t.leaf = true →
      arrAdd (t.grad.getD (zerosLike t.arr)) (reduceGrad t.arr g) = some ng →
      backwardLoop (fuel + 1) s ((some n, g) :: rest)
          = backwardLoop fuel
              (updT s n.tid fun t0 => {t0 with grad := some (castArr ng t0.arr.dtype)})
              rest
        ∧ (updT s n.tid fun t0 =>
            {t0 with grad := some (castArr ng t0.arr.dtype)}).get? n.tid
            = some {t with grad := some (castArr ng t.arr.dtype)}) ∧
    (match backwardRun 10 reluState 1 (some ⟨[1], [2], .f32⟩) with
     | .ok s2 => backwardRun 10 s2 2 (some ⟨[1], [3], .f32⟩)
     | e => e)
      = .ok [{reluX with grad := some ⟨[1], [5], .f32⟩}, reluY1, reluY2] := by
  constructor
  · intro fuel s n g rest t ng hget hleaf hadd
    constructor
    · simp only [backwardLoop, hget]
      rw [if_pos hleaf]
      simp only [hadd]
    · rw [updT_get?, if_pos rfl, hget]
      rfl
  · decide

/-- Witness for C1 at the relu leaf: store `[reluX]`, accumulator node
`⟨0, none⟩`, incoming gradient `[2.0]`. -/
theorem c1_leaf_accumulation_witness :
    ([reluX] : GState).get? 0 = some reluX ∧ reluX.leaf = true ∧
    arrAdd (reluX.grad.getD (zerosLike reluX.arr))
        (reduceGrad reluX.arr ⟨[1], [2], .f32⟩) = some ⟨[1], [2], .f32⟩ ∧
    (backwardLoop 1 [reluX] [(some ⟨0, none⟩, ⟨[1], [2], .f32⟩)]
        = backwardLoop 0
            (updT [reluX] 0 fun t0 =>
              {t0 with grad := some (castArr ⟨[1], [2], .f32⟩ t0.arr.dtype)}) []
      ∧ (updT [reluX] 0 fun t0 =>
          {t0 with grad := some (castArr ⟨[1], [2], .f32⟩ t0.arr.dtype)}).get? 0
          = some {reluX with grad := some (castArr ⟨[1], [2], .f32⟩ reluX.arr.dtype)}) :=
  ⟨by decide, by decide, by decide,
    c1_leaf_accumulation.1 0 [reluX] ⟨0, none⟩ ⟨[1], [2], .f32⟩ [] reluX
      ⟨[1], [2], .f32⟩ (by decide) (by decide) (by decide)⟩

/-- Claim C3, code-bug demonstration.  In `c = mul(a, b)` with `a` a leaf
NOT requiring gradients and `b` a leaf requiring them, `Node.children()`
skips `a` (it has no node), so the zip in `_backward` pairs the node of
`b` with the FIRST returned gradient — `b * grad = [3.0]`, the gradient
computed for `a` — although `Mul.backward`'s gradient for `b` is
`a * grad = [2.0]`.  The differentiable input `b` therefore receives the
gradient computed for a different input, contradicting the claim (and
spec sections 4.1-4.3); the sibling deepnet engine keeps a `None`
placeholder per saved tensor, which preserves alignment, so the nura
filtering is a slip. -/
theorem c3_misrouted_gradient :
    backwardRun 10 mulState 2 (some ⟨[1], [1], .f32⟩)
        = .ok [mulA, {mulB with grad := some ⟨[1], [3], .f32⟩}, mulC] ∧
    funcBackward .mul [mulA.arr, mulB.arr] ⟨[1], [1], .f32⟩
        = some (.many [⟨[1], [3], .f32⟩, ⟨[1], [2], .f32⟩]) ∧
    children mulState ⟨2, some ⟨.mul, [0, 1]⟩⟩ = some [⟨1, none⟩] ∧
    (⟨[1], [3], .f32⟩ : Arr) ≠ ⟨[1], [2], .f32⟩ := by
  refine ⟨by decide, by decide, by decide, by decide⟩

/-- Claim C8: `grad` returns one accumulated gradient per requested input
tensor, keyed in input order, and never mutates the store — the final
store equals the initial store. -/
theorem c8_grad_purity :
    ∀ (fuel : Nat) (s : GState) (inpt : List Nat) (outId : Nat)
      (gOpt : Option Arr) (m2 : List (Nat × Arr)) (s2 : GState),
      inpt.Nodup →
      gradRun fuel s inpt outId gOpt = .ok m2 s2 →
      s2 = s ∧ m2.map Prod.fst = inpt := by
  intro fuel s inpt outId gOpt m2 s2 _hnd h
  unfold gradRun at h
  cases herr : graderr s inpt outId gOpt with
  | some e =>
    simp only [herr] at h
    exact (GradRes.noConfusion h)
  | none =>
    simp only [herr] at h
    cases hgo : s.get? outId with
    | none =>
      simp only [hgo] at h
      exact (GradRes.noConfusion h)
    | some out =>
      simp only [hgo] at h
      have hf := gradLoop_frame fuel h
      refine ⟨hf.1, ?_⟩
      have hcomp : ∀ (f : Nat → Arr), (Prod.fst ∘ fun i => (i, f i)) = id :=
        fun f => funext fun i => rfl
      rw [hf.2, List.map_map, hcomp, List.map_id]

/-- Witness for C8: the relu graph, requesting the gradient of the leaf
`x`. -/
theorem c8_grad_purity_witness :
    ([0] : List Nat).Nodup ∧
    gradRun 10 reluState [0] 1 (some ⟨[1], [2], .f32⟩)
        = .ok [(0, ⟨[1], [2], .f32⟩)] reluState ∧
    (reluState = reluState ∧ ([(0, (⟨[1], [2], .f32⟩ : Arr))].map Prod.fst = [0])) :=
  ⟨by decide, by decide,
    c8_grad_purity 10 reluState [0] 1 (some ⟨[1], [2], .f32⟩)
      [(0, ⟨[1], [2], .f32⟩)] reluState (by decide) (by decide)⟩

/-- Claim C10: every gradient the engine stores is cast to the dtype of
the tensor it is accumulated into.  If every populated grad in the store
has its tensor's dtype, the same holds after any backward traversal
(whatever the dtype of the seed or of intermediate gradients); and every
gradient map `grad` returns pairs each requested input with a gradient of
that input's dtype. -/
theorem c10_dtype_cast :
    (∀ (fuel : Nat) (s : GState) (q : List (Option Node × Arr)) (s2 : GState),
      gradsTyped s = true → backwardLoop fuel s q = .ok s2 → gradsTyped s2 = true) ∧
    (∀ (fuel : Nat) (s : GState) (inpt : List Nat) (outId : Nat)
        (gOpt : Option Arr) (m2 : List (Nat × Arr)) (s2 : GState),
      (∀ i ∈ inpt, (s.get? i).isSome = true) →
      gradRun fuel s inpt outId gOpt = .ok m2 s2 → mapTyped s m2 = true) := by
  constructor
  · intro fuel s q s2 hs h
    exact backwardLoop_typed fuel hs h
  · intro fuel s inpt outId gOpt m2 s2 hin h
    unfold gradRun at h
    cases herr : graderr s inpt outId gOpt with
    | some e =>
      simp only [herr] at h
      exact (GradRes.noConfusion h)
    | none =>
      simp only [herr] at h
      cases hgo : s.get? outId with
      | none =>
        simp only [hgo] at h
        exact (GradRes.noConfusion h)
      | some out =>
        simp only [hgo] at h
        refine gradLoop_mapTyped fuel ?_ h
        unfold mapTyped
        rw [List.all_eq_true]
        intro p hp
        rcases List.mem_map.mp hp with ⟨i, hi, rfl⟩
        rcases Option.isSome_iff_exists.mp (hin i hi) with ⟨t, ht⟩
        have ht2 : s[i]? = some t := by
          rw [← List.get?_eq_getElem?]
          exact ht
        simp [ht, ht2, zerosLike]

/-- Witness for C10: a backward traversal of the relu graph with an
`f16` seed still stores an `f32` gradient on the `f32` leaf, and the
gradient map of `grad` is typed. -/
theorem c10_dtype_cast_witness :
    gradsTyped reluState = true ∧
    backwardLoop 10 reluState [(some ⟨1, some ⟨.relu, [0]⟩⟩, ⟨[1], [2], .f16⟩)]
        = .ok [{reluX with grad := some ⟨[1], [2], .f32⟩}, reluY1, reluY2] ∧
    gradsTyped [{reluX with grad := some ⟨[1], [2], .f32⟩}, reluY1, reluY2] = true ∧
    (∀ i ∈ ([0] : List Nat), (reluState.get? i).isSome = true) ∧
    gradRun 10 reluState [0] 1 (some ⟨[1], [2], .f16⟩)
        = .ok [(0, ⟨[1], [2], .f32⟩)] reluState ∧
    mapTyped reluState [(0, ⟨[1], [2], .f32⟩)] = true :=
  ⟨by decide, by decide,
    c10_dtype_cast.1 10 reluState [(some ⟨1, some ⟨.relu, [0]⟩⟩, ⟨[1], [2], .f16⟩)]
      [{reluX with grad := some ⟨[1], [2], .f32⟩}, reluY1, reluY2]
      (by decide) (by decide),
    by decide, by decide,
    c10_dtype_cast.2 10 reluState [0] 1 (some ⟨[1], [2], .f16⟩)
      [(0, ⟨[1], [2], .f32⟩)] reluState (by decide) (by decide)⟩

/-! ### Graph-construction lemmas (`genout`) -/

/-- `genout` returns the output untouched when no saved tensor requires
gradients. -/
theorem genout_nograd {m : Mode} {s : GState} {o : Nat} {c : Ctx}
    (h : ctxUsesgrad s c = false) : genout m s o c = some s := by
  unfold genout
  simp [h]

/-- `genout` returns the output untouched when grad-tracking is
disabled. -/
theorem genout_disabled {m : Mode} {s : GState} {o : Nat} {c : Ctx}
    (h : m.enabled = false) : genout m s o c = some s := by
  unfold genout
  by_cases hg : ctxUsesgrad s c
  · simp [hg, h]
  · simp [hg]

/-- Under the reverse discipline, `genout` attaches the new node as the
output's backfn and marks the output `usegrad=True, leaf=False`. -/
theorem genout_reverse {m : Mode} {s : GState} {o : Nat} {c : Ctx}
    (hg : ctxUsesgrad s c = true) (he : m.enabled = true) (hr : m.rev = true) :
    genout m s o c
      = some (updT s o fun t =>
          {t with backfn := some ⟨o, some c⟩, usegrad := true, leaf := false}) := by
  unfold genout
  simp [hg, he, hr]

/-- Under the forward discipline, `genout` eagerly computes the tangent
from the saved tensors' stored tangents (`getgrads`, zero-filled when
absent), stores it as the output's grad and marks the output non-leaf —
without touching its backfn. -/
theorem genout_forward {m : Mode} {s : GState} {o : Nat} {c : Ctx}
    {args : List Arr} {tg : Arr}
    (hg : ctxUsesgrad s c = true) (he : m.enabled = true) (hr : m.rev = false)
    (hf : m.fwd = true)
    (ha : (c.args.mapM fun i => (s.get? i).map (·.arr)) = some args)
    (ht : funcTangent c.func args (getgrads s c) = some tg) :
    genout m s o c
      = some (updT s o fun t =>
          {t with usegrad := true, grad := some tg, leaf := false}) := by
  unfold genout
  have hcond1 : ¬ (¬ ctxUsesgrad s c = true) := by simp [hg]
  have hcond2 : ¬ ((m.enabled && m.rev) = true) := by simp [he, hr]
  have hcond3 : (m.enabled && m.fwd) = true := by simp [he, hf]
  rw [if_neg hcond1, if_neg hcond2, if_pos hcond3]
  simp only [ha, ht]

/-! ### Claim theorems C4, C5, C7 -/

/-- Claim C4, counterexample.  All of `vjp`'s pre-traversal validation
passes (`_vjperr` only checks dtypes — it never checks for a producer
node), `f` is re-executed, and the run then fails with `attrNone`: the
Python `AttributeError` raised when the traversal loop pops the `None`
seed node — an error arising INSIDE the traversal, not raised before it
begins.  (No gradient accumulates: in the error store every tensor still
has `grad = none`.) -/
theorem c4_counterexample :
    vjperr [plainLeaf] [0] ⟨[1], [1], .f32⟩ = none ∧
    vjpRun 10 [plainLeaf] [0] ⟨[1], [1], .f32⟩ idFun
      = .err .attrNone
          [plainLeaf, {plainLeaf with usegrad := true, grad := none, leaf := true}] ∧
    plainLeaf.grad = none := by
  refine ⟨by decide, by decide, by decide⟩

/-- Claim C4 (amended): `backward` and `grad` raise their no-graph and
ambiguous-seed errors before any traversal begins and mutate nothing (the
error carries the untouched store); `vjp` on an output with no producer
node raises an error only once the traversal pops the missing node —
after `f` was re-executed — still with no gradient accumulation. -/
theorem c4_errors_amended :
    (∀ (fuel : Nat) (s : GState) (o : Nat) (g : Option Arr) (t : TensorV),
      s.get? o = some t → t.backfn = none →
      backwardRun fuel s o g = .err .noGraph s) ∧
    (∀ (fuel : Nat) (s : GState) (o : Nat) (t : TensorV),
      s.get? o = some t → t.backfn ≠ none → t.arr.shape.prod ≠ 1 →
      backwardRun fuel s o none = .err .ambiguousSeed s) ∧
    (∀ (fuel : Nat) (s : GState) (inpt : List Nat) (o : Nat) (g : Option Arr)
        (t : TensorV),
      allGradDT s inpt = true → s.get? o = some t → t.backfn = none →
      gradRun fuel s inpt o g = .err .noGraph s) ∧
    (∀ (fuel : Nat) (s : GState) (inpt : List Nat) (o : Nat) (t : TensorV),
      allGradDT s inpt = true → s.get? o = some t → t.backfn ≠ none →
      t.arr.shape.prod ≠ 1 →
      gradRun fuel s inpt o none = .err .ambiguousSeed s) ∧
    vjpRun 10 [plainLeaf] [0] ⟨[1], [1], .f32⟩ idFun
      = .err .attrNone
          [plainLeaf, {plainLeaf with usegrad := true, grad := none, leaf := true}] := by
  refine ⟨?_, ?_, ?_, ?_, by decide⟩
  · intro fuel s o g t hget hb
    have hget2 : s[o]? = some t := by
      rw [← List.get?_eq_getElem?]
      exact hget
    unfold backwardRun backwarderr
    simp [hget, hget2, hb]
  · intro fuel s o t hget hb hprod
    have hget2 : s[o]? = some t := by
      rw [← List.get?_eq_getElem?]
      exact hget
    unfold backwardRun backwarderr
    simp [hget, hget2, hb, hprod]
  · intro fuel s inpt o g t hdt hget hb
    have hget2 : s[o]? = some t := by
      rw [← List.get?_eq_getElem?]
      exact hget
    unfold gradRun graderr
    simp [hdt, hget, hget2, hb]
  · intro fuel s inpt o t hdt hget hb hprod
    have hget2 : s[o]? = some t := by
      rw [← List.get?_eq_getElem?]
      exact hget
    unfold gradRun graderr
    simp [hdt, hget, hget2, hb, hprod]

/-- Witness for C4 (amended), at concrete stores: a no-graph leaf for
`backward`/`grad` and a two-element output with a node for the
ambiguous-seed errors. -/
theorem c4_errors_amended_witness :
    ([plainLeaf] : GState).get? 0 = some plainLeaf ∧ plainLeaf.backfn = none ∧
    backwardRun 5 [plainLeaf] 0 none = .err .noGraph [plainLeaf] ∧
    ([plainLeaf, wideOut] : GState).get? 1 = some wideOut ∧
    wideOut.backfn ≠ none ∧ wideOut.arr.shape.prod ≠ 1 ∧
    backwardRun 5 [plainLeaf, wideOut] 1 none = .err .ambiguousSeed [plainLeaf, wideOut] ∧
    allGradDT [plainLeaf] [0] = true ∧
    gradRun 5 [plainLeaf] [0] 0 none = .err .noGraph [plainLeaf] ∧
    allGradDT [plainLeaf, wideOut] [0] = true ∧
    gradRun 5 [plainLeaf, wideOut] [0] 1 none
      = .err .ambiguousSeed [plainLeaf, wideOut] :=
  ⟨by decide, by decide,
    c4_errors_amended.1 5 [plainLeaf] 0 none plainLeaf (by decide) (by decide),
    by decide, by decide, by decide,
    c4_errors_amended.2.1 5 [plainLeaf, wideOut] 1 wideOut (by decide) (by decide)
      (by decide),
    by decide,
    c4_errors_amended.2.2.1 5 [plainLeaf] [0] 0 none plainLeaf (by decide) (by decide)
      (by decide),
    by decide,
    c4_errors_amended.2.2.2.1 5 [plainLeaf, wideOut] [0] 1 wideOut (by decide)
      (by decide) (by decide) (by decide)⟩

/-- Claim C5, counterexample.  An operation applied under the FORWARD
discipline produces an output with `is_leaf = false` and NO producer
node (`genout` stores the tangent and leaves `backfn = None`): the
claimed invariant "a non-leaf tensor has a producer node" fails for
forward-mode outputs. -/
theorem c5_counterexample :
    applyMul fwdMode [tangA, tangB] 0 1
        = some
            ([tangA, tangB,
              ⟨⟨[1], [6], .f32⟩, true, false, some ⟨[1], [3], .f32⟩, none⟩], 2) ∧
    (⟨⟨[1], [6], .f32⟩, true, false, some ⟨[1], [3], .f32⟩, none⟩ : TensorV).leaf
        = false ∧
    (⟨⟨[1], [6], .f32⟩, true, false, some ⟨[1], [3], .f32⟩, none⟩ : TensorV).backfn
        = none := by
  refine ⟨by decide, by decide, by decide⟩

/-- Claim C5 (amended): if grad-tracking is disabled or no saved tensor
requires gradients the output is returned unchanged; under the REVERSE
discipline the new node becomes the output's producer node and the
output is marked `usegrad=True, leaf=False` — so reverse-produced
non-leaf tensors always have a node; under the FORWARD discipline the
output is marked non-leaf with the tangent stored in `grad` and its
producer node left absent. -/
theorem c5_graph_attachment_amended :
    (∀ (m : Mode) (s : GState) (o : Nat) (c : Ctx),
      ctxUsesgrad s c = false → genout m s o c = some s) ∧
    (∀ (m : Mode) (s : GState) (o : Nat) (c : Ctx),
      m.enabled = false → genout m s o c = some s) ∧
    (∀ (m : Mode) (s : GState) (o : Nat) (c : Ctx) (t : TensorV),
      ctxUsesgrad s c = true → m.enabled = true → m.rev = true →
      s.get? o = some t →
      genout m s o c
          = some (s.set o
              {t with backfn := some ⟨o, some c⟩, usegrad := true, leaf := false}) ∧
      ({t with backfn := some ⟨o, some c⟩, usegrad := true, leaf := false}
          : TensorV).leaf = false ∧
      ({t with backfn := some ⟨o, some c⟩, usegrad := true, leaf := false}
          : TensorV).backfn ≠ none) ∧
    (∀ (m : Mode) (s : GState) (o : Nat) (c : Ctx) (t : TensorV) (args : List Arr)
        (tg : Arr),
      ctxUsesgrad s c = true → m.enabled = true → m.rev = false → m.fwd = true →
      (c.args.mapM fun i => (s.get? i).map (·.arr)) = some args →
      funcTangent c.func args (getgrads s c) = some tg →
      s.get? o = some t →
      genout m s o c
          = some (s.set o {t with usegrad := true, grad := some tg, leaf := false}) ∧
      ({t with usegrad := true, grad := some tg, leaf := false} : TensorV).leaf
          = false ∧
      ({t with usegrad := true, grad := some tg, leaf := false} : TensorV).backfn
          = t.backfn) := by
  refine ⟨?_, ?_, ?_, ?_⟩
  · intro m s o c h
    exact genout_nograd h
  · intro m s o c h
    exact genout_disabled h
  · intro m s o c t hg he hr hget
    refine ⟨?_, rfl, by simp⟩
    rw [genout_reverse hg he hr]
    unfold updT
    rw [hget]
  · intro m s o c t args tg hg he hr hf ha ht hget
    refine ⟨?_, rfl, rfl⟩
    rw [genout_forward hg he hr hf ha ht]
    unfold updT
    rw [hget]

/-- Witness for C5 (amended), instantiating all four branches
concretely. -/
theorem c5_graph_attachment_amended_witness :
    (ctxUsesgrad [mulA] ⟨.mul, [0, 0]⟩ = false ∧
      genout revMode [mulA] 0 ⟨.mul, [0, 0]⟩ = some [mulA]) ∧
    ((⟨false, true, false⟩ : Mode).enabled = false ∧
      genout ⟨false, true, false⟩ [mulB] 0 ⟨.mul, [0, 0]⟩ = some [mulB]) ∧
    (ctxUsesgrad [tangA, tangB, freshMulOut] ⟨.mul, [0, 1]⟩ = true ∧
      ([tangA, tangB, freshMulOut] : GState).get? 2 = some freshMulOut ∧
      genout revMode [tangA, tangB, freshMulOut] 2 ⟨.mul, [0, 1]⟩
          = some ([tangA, tangB, freshMulOut].set 2
              { freshMulOut with
                backfn := some ⟨2, some ⟨.mul, [0, 1]⟩⟩
                usegrad := true
                leaf := false })) ∧
    (genout fwdMode [tangA, tangB, freshMulOut] 2 ⟨.mul, [0, 1]⟩
        = some ([tangA, tangB, freshMulOut].set 2
            { freshMulOut with
              usegrad := true
              grad := some ⟨[1], [3], .f32⟩
              leaf := false })) :=
  ⟨⟨by decide,
      (c5_graph_attachment_amended.1 revMode [mulA] 0 ⟨.mul, [0, 0]⟩ (by decide))⟩,
    ⟨by decide,
      (c5_graph_attachment_amended.2.1 ⟨false, true, false⟩ [mulB] 0 ⟨.mul, [0, 0]⟩
        (by decide))⟩,
    ⟨by decide, by decide,
      (c5_graph_attachment_amended.2.2.1 revMode [tangA, tangB, freshMulOut] 2
        ⟨.mul, [0, 1]⟩ freshMulOut (by decide) (by decide) (by decide) (by decide)).1⟩,
    (c5_graph_attachment_amended.2.2.2 fwdMode [tangA, tangB, freshMulOut] 2
      ⟨.mul, [0, 1]⟩ freshMulOut [tangA.arr, tangB.arr] ⟨[1], [3], .f32⟩ (by decide)
      (by decide) (by decide) (by decide) (by decide) (by decide) (by decide)).1⟩

/-- Claim C7: under the forward discipline every operation application
eagerly computes the output's tangent by invoking the operation's tangent
function on the saved tensors' currently stored tangents (`getgrads`
zero-fills an absent tangent), stores the result as the output's grad,
and retains no producer node on the output; `jvp` attaches each tangent
to its input, re-executes `f` under a scoped forward-mode context, and
returns the output paired with the tangent read directly off it.  The
concrete conjuncts: a Mul under forward mode whose second operand has NO
stored tangent (its tangent is zero-filled, giving `5*3 + 0*2 = 15`),
and a full `jvp` of Mul returning the eagerly propagated tangent
`1*3 + 0*2 = 3`. -/
theorem c7_forward_tangent :
    (∀ (m : Mode) (s : GState) (o : Nat) (c : Ctx) (t : TensorV) (args : List Arr)
        (tg : Arr),
      ctxUsesgrad s c = true → m.enabled = true → m.rev = false → m.fwd = true →
      (c.args.mapM fun i => (s.get? i).map (·.arr)) = some args →
      funcTangent c.func args (getgrads s c) = some tg →
      s.get? o = some t →
      genout m s o c
          = some (s.set o {t with usegrad := true, grad := some tg, leaf := false}) ∧
      ({t with usegrad := true, grad := some tg, leaf := false} : TensorV).grad
          = some tg ∧
      ({t with usegrad := true, grad := some tg, leaf := false} : TensorV).backfn
          = t.backfn) ∧
    getgrads [tangA5, tangBnone] ⟨.mul, [0, 1]⟩
        = [⟨[1], [5], .f32⟩, zerosLike tangBnone.arr] ∧
    applyMul fwdMode [tangA5, tangBnone] 0 1
        = some
            ([tangA5, tangBnone,
              ⟨⟨[1], [6], .f32⟩, true, false, some ⟨[1], [15], .f32⟩, none⟩], 2) ∧
    jvpRun
        [⟨⟨[1], [2], .f32⟩, false, true, none, none⟩,
          ⟨⟨[1], [3], .f32⟩, false, true, none, none⟩]
        [0, 1] [⟨[1], [1], .f32⟩, ⟨[1], [0], .f32⟩] mulFun
      = .ok
          [⟨⟨[1], [2], .f32⟩, false, true, none, none⟩,
            ⟨⟨[1], [3], .f32⟩, false, true, none, none⟩,
            ⟨⟨[1], [2], .f32⟩, true, true, some ⟨[1], [1], .f32⟩, none⟩,
            ⟨⟨[1], [3], .f32⟩, true, true, some ⟨[1], [0], .f32⟩, none⟩,
            ⟨⟨[1], [6], .f32⟩, true, false, some ⟨[1], [3], .f32⟩, none⟩]
          4 ⟨[1], [3], .f32⟩ := by
  refine ⟨?_, by decide, by decide, by decide⟩
  intro m s o c t args tg hg he hr hf ha ht hget
  refine ⟨?_, rfl, rfl⟩
  rw [genout_forward hg he hr hf ha ht]
  unfold updT
  rw [hget]

/-- Witness for C7 at the zero-filled-tangent Mul. -/
theorem c7_forward_tangent_witness :
    ctxUsesgrad [tangA5, tangBnone, freshMulOut] ⟨.mul, [0, 1]⟩ = true ∧
    funcTangent .mul [tangA5.arr, tangBnone.arr]
        (getgrads [tangA5, tangBnone, freshMulOut] ⟨.mul, [0, 1]⟩)
        = some ⟨[1], [15], .f32⟩ ∧
    (genout fwdMode [tangA5, tangBnone, freshMulOut] 2 ⟨.mul, [0, 1]⟩
        = some ([tangA5, tangBnone, freshMulOut].set 2
            { freshMulOut with
              usegrad := true
              grad := some ⟨[1], [15], .f32⟩
              leaf := false }) ∧
      ({ freshMulOut with
         usegrad := true
         grad := some ⟨[1], [15], .f32⟩
         leaf := false } : TensorV).grad = some ⟨[1], [15], .f32⟩ ∧
      ({ freshMulOut with
         usegrad := true
         grad := some ⟨[1], [15], .f32⟩
         leaf := false } : TensorV).backfn = freshMulOut.backfn) :=
  ⟨by decide, by decide,
    c7_forward_tangent.1 fwdMode [tangA5, tangBnone, freshMulOut] 2 ⟨.mul, [0, 1]⟩
      freshMulOut [tangA5.arr, tangBnone.arr] ⟨[1], [15], .f32⟩ (by decide) (by decide)
      (by decide) (by decide) (by decide) (by decide) (by decide)⟩

/-! ### Matrix-multiply backward lemmas (claim C6) -/

theorem set_append_len {α : Type} (l1 l2 : List α) (i : Nat) (a : α) :
    (l1 ++ l2).set (l1.length + i) a = l1 ++ l2.set i a := by
  induction l1 with
  | nil => simp
  | cons x xs ih =>
    simp only [List.cons_append, List.length_cons]
    have harith : xs.length + 1 + i = (xs.length + i) + 1 := by omega
    rw [harith]
    show x :: (xs ++ l2).set (xs.length + i) a = x :: (xs ++ l2.set i a)
    rw [ih]

/-- The permutation `Matmul.backward` builds swaps exactly the trailing
two axes and fixes every batch axis. -/
theorem permOf_swap (q : Nat) : permOf (q + 2) = List.range q ++ [q + 1, q] := by
  unfold permOf
  have e2 : q + 2 - 2 = q := by omega
  have e1 : q + 2 - 1 = q + 1 := by omega
  have hrange : List.range (q + 2) = List.range q ++ [q, q + 1] := by
    rw [List.range_succ, List.range_succ, List.append_assoc]
    rfl
  have hlen : (List.range q).length = q := List.length_range q
  rw [e2, e1, hrange]
  have hs1 : (List.range q ++ [q, q + 1]).set q (q + 1)
      = List.range q ++ [q + 1, q + 1] := by
    have h := set_append_len (List.range q) [q, q + 1] 0 (q + 1)
    rw [hlen] at h
    simp only [Nat.add_zero] at h
    exact h
  rw [hs1]
  have hs2 : (List.range q ++ [q + 1, q + 1]).set (q + 1) q
      = List.range q ++ [q + 1, q] := by
    have h := set_append_len (List.range q) [q + 1, q + 1] 1 q
    rw [hlen] at h
    exact h
  rw [hs2]

theorem transposeByPerm3_shape {b : Arr} {p k n : Nat} (hb : b.shape = [p, k, n]) :
    (transposeByPerm (permOf 3) b).shape = [p, n, k] := by
  have hperm : permOf 3 = [0, 2, 1] := by decide
  simp [transposeByPerm, ofFun, hperm, hb, List.getD]

theorem transposeByPerm2_shape {b : Arr} {k n : Nat} (hb : b.shape = [k, n]) :
    (transposeByPerm (permOf 2) b).shape = [n, k] := by
  have hperm : permOf 2 = [1, 0] := by decide
  simp [transposeByPerm, ofFun, hperm, hb, List.getD]

theorem transposeByPerm3_get {b : Arr} {p k n : Nat} (hb : b.shape = [p, k, n])
    {c l j : Nat} (hc : c < p) (hl : l < n) (hj : j < k) :
    arrGet (transposeByPerm (permOf 3) b) [c, l, j] = arrGet b [c, j, l] := by
  have hperm : permOf 3 = [0, 2, 1] := by decide
  have i0 : ([0, 2, 1] : List Nat).indexOf 0 = 0 := by decide
  have i1 : ([0, 2, 1] : List Nat).indexOf 1 = 2 := by decide
  have i2 : ([0, 2, 1] : List Nat).indexOf 2 = 1 := by decide
  unfold transposeByPerm
  rw [hperm, hb]
  have hsh : ([0, 2, 1].map fun pp => ([p, k, n].getD pp 0)) = [p, n, k] := by
    simp [List.getD]
  rw [hsh, arrGet_ofFun _ _ (by simp [idxOk, hc, hl, hj])]
  have hix : (List.map (fun m => [c, l, j].getD (List.indexOf m [0, 2, 1]) 0)
      (List.range ([p, k, n] : List Nat).length)) = [c, j, l] := by
    simp [List.range_succ, i0, i1, i2, List.getD]
  rw [hix]

theorem transposeByPerm2_get {b : Arr} {k n : Nat} (hb : b.shape = [k, n])
    {l j : Nat} (hl : l < n) (hj : j < k) :
    arrGet (transposeByPerm (permOf 2) b) [l, j] = arrGet b [j, l] := by
  have hperm : permOf 2 = [1, 0] := by decide
  have i0 : ([1, 0] : List Nat).indexOf 0 = 1 := by decide
  have i1 : ([1, 0] : List Nat).indexOf 1 = 0 := by decide
  unfold transposeByPerm
  rw [hperm, hb]
  have hsh : ([1, 0].map fun pp => ([k, n].getD pp 0)) = [n, k] := by
    simp [List.getD]
  rw [hsh, arrGet_ofFun _ _ (by simp [idxOk, hl, hj])]
  have hix : (List.map (fun m => [l, j].getD (List.indexOf m [1, 0]) 0)
      (List.range ([k, n] : List Nat).length)) = [j, l] := by
    simp [List.range_succ, i0, i1, List.getD]
  rw [hix]

theorem matmulNd_shape3 {x y : Arr} {p mm kk nn : Nat}
    (hx : x.shape = [p, mm, kk]) (hy : y.shape = [p, kk, nn]) :
    (matmulNd x y).shape = [p, mm, nn] := by
  simp [matmulNd, ofFun, hx, hy, List.getD]

theorem matmulNd_shape2 {x y : Arr} {mm kk nn : Nat}
    (hx : x.shape = [mm, kk]) (hy : y.shape = [kk, nn]) :
    (matmulNd x y).shape = [mm, nn] := by
  simp [matmulNd, ofFun, hx, hy, List.getD]

theorem matmulNd_get3 {x y : Arr} {p mm kk nn : Nat}
    (hx : x.shape = [p, mm, kk]) (hy : y.shape = [p, kk, nn])
    {c i j : Nat} (hc : c < p) (hi : i < mm) (hj : j < nn) :
    arrGet (matmulNd x y) [c, i, j]
      = ((List.range kk).map fun l => arrGet x [c, i, l] * arrGet y [c, l, j]).sum := by
  unfold matmulNd
  rw [hx, hy]
  have hidx : idxOk ([p, mm, kk].take ([p, mm, kk].length - 2)
      ++ [[p, mm, kk].getD ([p, mm, kk].length - 2) 0,
          [p, kk, nn].getD ([p, kk, nn].length - 1) 0]) [c, i, j] = true := by
    simp [idxOk, List.getD, hc, hi, hj]
  rw [arrGet_ofFun _ _ hidx]
  simp [List.getD]

theorem matmulNd_get2 {x y : Arr} {mm kk nn : Nat}
    (hx : x.shape = [mm, kk]) (hy : y.shape = [kk, nn])
    {i j : Nat} (hi : i < mm) (hj : j < nn) :
    arrGet (matmulNd x y) [i, j]
      = ((List.range kk).map fun l => arrGet x [i, l] * arrGet y [l, j]).sum := by
  unfold matmulNd
  rw [hx, hy]
  have hidx : idxOk ([mm, kk].take ([mm, kk].length - 2)
      ++ [[mm, kk].getD ([mm, kk].length - 2) 0,
          [kk, nn].getD ([kk, nn].length - 1) 0]) [i, j] = true := by
    simp [idxOk, List.getD, hi, hj]
  rw [arrGet_ofFun _ _ hidx]
  simp [List.getD]

/-- Claim C6: `Matmul.backward` returns `grad_a = grad_out @ b^T` and
`grad_b = a^T @ grad_out` where the transpose swaps only the trailing two
axes.  First conjunct: the permutation built from `np.arange(n)` with the
last two entries swapped fixes every batch axis.  Second and third
conjuncts: for batched 3-D and for plain 2-D operands, the returned
gradients have the operands' shapes and every entry satisfies the closed
forms `grad_a[.., i, j] = sum_l grad[.., i, l] * b[.., j, l]` and
`grad_b[.., i, j] = sum_l a[.., l, i] * grad[.., l, j]`, with the batch
index carried through unchanged. -/
theorem c6_matmul_backward :
    (∀ q : Nat, permOf (q + 2) = List.range q ++ [q + 1, q]) ∧
    (∀ (p m k n : Nat) (a b g : Arr),
      a.shape = [p, m, k] → b.shape = [p, k, n] → g.shape = [p, m, n] →
      (matmulBackward a b g).1.shape = [p, m, k] ∧
      (matmulBackward a b g).2.shape = [p, k, n] ∧
      (∀ c i j, c < p → i < m → j < k →
        arrGet (matmulBackward a b g).1 [c, i, j]
          = ((List.range n).map fun l => arrGet g [c, i, l] * arrGet b [c, j, l]).sum) ∧
      (∀ c i j, c < p → i < k → j < n →
        arrGet (matmulBackward a b g).2 [c, i, j]
          = ((List.range m).map fun l => arrGet a [c, l, i] * arrGet g [c, l, j]).sum)) ∧
    (∀ (m k n : Nat) (a b g : Arr),
      a.shape = [m, k] → b.shape = [k, n] → g.shape = [m, n] →
      (matmulBackward a b g).1.shape = [m, k] ∧
      (matmulBackward a b g).2.shape = [k, n] ∧
      (∀ i j, i < m → j < k →
        arrGet (matmulBackward a b g).1 [i, j]
          = ((List.range n).map fun l => arrGet g [i, l] * arrGet b [j, l]).sum) ∧
      (∀ i j, i < k → j < n →
        arrGet (matmulBackward a b g).2 [i, j]
          = ((List.range m).map fun l => arrGet a [l, i] * arrGet g [l, j]).sum)) := by
  refine ⟨permOf_swap, ?_, ?_⟩
  · intro p m k n a b g ha hb hg
    have hlb : b.shape.length = 3 := by rw [hb]; rfl
    have hla : a.shape.length = 3 := by rw [ha]; rfl
    have htB : (transposeByPerm (permOf 3) b).shape = [p, n, k] := transposeByPerm3_shape hb
    have htA : (transposeByPerm (permOf 3) a).shape = [p, k, m] := transposeByPerm3_shape ha
    unfold matmulBackward
    rw [hlb, hla]
    refine ⟨matmulNd_shape3 hg htB, matmulNd_shape3 htA hg, ?_, ?_⟩
    · intro c i j hc hi hj
      rw [matmulNd_get3 hg htB hc hi hj]
      congr 1
      apply List.map_congr_left
      intro l hl
      rw [transposeByPerm3_get hb hc (List.mem_range.mp hl) hj]
    · intro c i j hc hi hj
      rw [matmulNd_get3 htA hg hc hi hj]
      congr 1
      apply List.map_congr_left
      intro l hl
      rw [transposeByPerm3_get ha hc hi (List.mem_range.mp hl)]
  · intro m k n a b g ha hb hg
    have hlb : b.shape.length = 2 := by rw [hb]; rfl
    have hla : a.shape.length = 2 := by rw [ha]; rfl
    have htB : (transposeByPerm (permOf 2) b).shape = [n, k] := transposeByPerm2_shape hb
    have htA : (transposeByPerm (permOf 2) a).shape = [k, m] := transposeByPerm2_shape ha
    unfold matmulBackward
    rw [hlb, hla]
    refine ⟨matmulNd_shape2 hg htB, matmulNd_shape2 htA hg, ?_, ?_⟩
    · intro i j hi hj
      rw [matmulNd_get2 hg htB hi hj]
      congr 1
      apply List.map_congr_left
      intro l hl
      rw [transposeByPerm2_get hb (List.mem_range.mp hl) hj]
    · intro i j hi hj
      rw [matmulNd_get2 htA hg hi hj]
      congr 1
      apply List.map_congr_left
      intro l hl
      rw [transposeByPerm2_get ha hi (List.mem_range.mp hl)]

/-- Witness for C6: batched 1-by-1 matrices `a=[2]`, `b=[3]`, `g=[5]` and
the 2-D pair of the same values. -/
theorem c6_matmul_backward_witness :
    permOf 2 = List.range 0 ++ [1, 0] ∧
    ((⟨[1, 1, 1], [2], .f32⟩ : Arr).shape = [1, 1, 1] ∧
      (matmulBackward ⟨[1, 1, 1], [2], .f32⟩ ⟨[1, 1, 1], [3], .f32⟩
          ⟨[1, 1, 1], [5], .f32⟩).1.shape = [1, 1, 1] ∧
      arrGet (matmulBackward ⟨[1, 1, 1], [2], .f32⟩ ⟨[1, 1, 1], [3], .f32⟩
          ⟨[1, 1, 1], [5], .f32⟩).1 [0, 0, 0]
        = ((List.range 1).map fun l =>
            arrGet (⟨[1, 1, 1], [5], .f32⟩ : Arr) [0, 0, l]
              * arrGet (⟨[1, 1, 1], [3], .f32⟩ : Arr) [0, 0, l]).sum) ∧
    ((matmulBackward ⟨[1, 1], [2], .f32⟩ ⟨[1, 1], [3], .f32⟩
          ⟨[1, 1], [5], .f32⟩).2.shape = [1, 1] ∧
      arrGet (matmulBackward ⟨[1, 1], [2], .f32⟩ ⟨[1, 1], [3], .f32⟩
          ⟨[1, 1], [5], .f32⟩).2 [0, 0]
        = ((List.range 1).map fun l =>
            arrGet (⟨[1, 1], [2], .f32⟩ : Arr) [l, 0]
              * arrGet (⟨[1, 1], [5], .f32⟩ : Arr) [l, 0]).sum) :=
  ⟨c6_matmul_backward.1 0,
    ⟨rfl,
      (c6_matmul_backward.2.1 1 1 1 1 ⟨[1, 1, 1], [2], .f32⟩ ⟨[1, 1, 1], [3], .f32⟩
        ⟨[1, 1, 1], [5], .f32⟩ rfl rfl rfl).1,
      (c6_matmul_backward.2.1 1 1 1 1 ⟨[1, 1, 1], [2], .f32⟩ ⟨[1, 1, 1], [3], .f32⟩
        ⟨[1, 1, 1], [5], .f32⟩ rfl rfl rfl).2.2.1 0 0 0 (by decide) (by decide)
        (by decide)⟩,
    ⟨(c6_matmul_backward.2.2 1 1 1 ⟨[1, 1], [2], .f32⟩ ⟨[1, 1], [3], .f32⟩
        ⟨[1, 1], [5], .f32⟩ rfl rfl rfl).2.1,
      (c6_matmul_backward.2.2 1 1 1 ⟨[1, 1], [2], .f32⟩ ⟨[1, 1], [3], .f32⟩
        ⟨[1, 1], [5], .f32⟩ rfl rfl rfl).2.2.2 0 0 (by decide) (by decide)⟩⟩

/-- Witness for C9 at slope 3, `z = [0]`, `g = [5]`. -/
theorem c9_zero_threshold_witness :
    (0 : Nat) < (⟨[1], [0], .f32⟩ : Arr).data.length ∧
    (⟨[1], [0], .f32⟩ : Arr).data.getD 0 0 = 0 ∧
    ((leakyReluBackward 3 ⟨[1], [0], .f32⟩ ⟨[1], [5], .f32⟩).data.getD 0 0
        = (⟨[1], [5], .f32⟩ : Arr).data.getD 0 0 ∧
      (leakyReluTangent 3 ⟨[1], [0], .f32⟩ ⟨[1], [5], .f32⟩).data.getD 0 0
        = (⟨[1], [5], .f32⟩ : Arr).data.getD 0 0 ∧
      (reluBackward ⟨[1], [0], .f32⟩ ⟨[1], [5], .f32⟩).data.getD 0 0 = 0) :=
  ⟨by decide, by decide,
    c9_zero_threshold 3 ⟨[1], [0], .f32⟩ ⟨[1], [5], .f32⟩ 0
      (by decide) (by decide) (by decide)⟩

end DN
